import Mathlib

/-!
Verification of the asset view-model core of the fliff-portfolio-tracker
repository: the sort/filter/search pipeline (`assetUtils.ts`, `HomeScreen.tsx`),
the price simulation (`updateAssetPrices`) and the similarity recommender
(`getSimilarAssets`).

Modelling conventions:
- JS numbers are modelled as rationals (`ℚ`); `Math.round` is floor of `x + 1/2`
  (round half toward positive infinity), matching its JS semantics.
- `Math.random()` results are passed in explicitly as a stream `rnd : ℕ → ℚ`
  with the contract `0 ≤ rnd i < 1`.
- JS strings are `String`; `toLowerCase` is an ASCII case fold per character;
  JS string `<` is lexicographic comparison of the character sequences.
- `Array.prototype.sort` is stable (ECMA-262) and the comparators used are
  consistent, so it is modelled as a stable merge sort with
  `le a b ↔ comparator(a, b) ≤ 0`.
- The runtime `switch` in `filterAssets` dispatches on a string value, so the
  filter mode is modelled as `String` (the test suite passes an out-of-union
  string to it deliberately).
-/

/-- The `type` field of `Asset` (the string union of stock and crypto in `types/index.ts`). -/
inductive AssetType where
  | stock
  | crypto
deriving DecidableEq

/-- The `Asset` interface of `types/index.ts`. -/
structure Asset where
  id : Int
  name : String
  symbol : String
  type : AssetType
  currentPrice : ℚ
  dailyChangePercent : ℚ
deriving DecidableEq

/-- `SortField` of `types/index.ts` (the string union of name and dailyChangePercent). -/
inductive SortField where
  | name
  | dailyChangePercent
deriving DecidableEq

/-- `SortDirection` of `types/index.ts` (the string union of asc and desc). -/
inductive SortDirection where
  | asc
  | desc
deriving DecidableEq

/-- JS `s.toLowerCase()` viewed as a character sequence (ASCII case fold). -/
def foldCase (s : String) : List Char := s.data.map Char.toLower

/-- JS `<` on strings: lexicographic comparison by code unit. -/
def lexLt : List Char → List Char → Bool
  | [], [] => false
  | [], _ :: _ => true
  | _ :: _, [] => false
  | a :: as, b :: bs => decide (a < b) || (a == b && lexLt as bs)

/-- The comparison `aValue < bValue` of the `sortAssets` comparator, where
`aValue`/`bValue` are the per-field key values: the lowercased `name` when
the field is `name`, and `dailyChangePercent` otherwise. -/
def keyLt (field : SortField) (a b : Asset) : Bool :=
  match field with
  | .name => lexLt (foldCase a.name) (foldCase b.name)
  | .dailyChangePercent => decide (a.dailyChangePercent < b.dailyChangePercent)

/-- The comparator callback of `sortAssets`:
`asc` returns `aValue < bValue ? -1 : aValue > bValue ? 1 : 0`, and
`desc` returns `aValue > bValue ? -1 : aValue < bValue ? 1 : 0`. -/
def jsCompare (field : SortField) (direction : SortDirection) (a b : Asset) : Int :=
  match direction with
  | .asc => if keyLt field a b then -1 else if keyLt field b a then 1 else 0
  | .desc => if keyLt field b a then -1 else if keyLt field a b then 1 else 0

/-- The sort order induced by the comparator: `a` may precede `b` exactly when
`comparator(a, b) ≤ 0`. -/
def sortLe (field : SortField) (direction : SortDirection) (a b : Asset) : Bool :=
  decide (jsCompare field direction a b ≤ 0)

/-- `sortAssets` of `assetUtils.ts`: `[...assets].sort(comparator)`, a stable
sort of a copy of the input by the comparator `jsCompare`. -/
def sortAssets (assets : List Asset) (field : SortField) (direction : SortDirection) :
    List Asset :=
  assets.mergeSort (sortLe field direction)

/-- `filterAssets` of `assetUtils.ts`: a runtime `switch` on the filter-type
string; the `default` branch (every unlisted string, including `all`)
returns the input unchanged. -/
def filterAssets (assets : List Asset) (filterType : String) : List Asset :=
  if filterType = "topGainers" then
    assets.filter fun asset => decide (0 < asset.dailyChangePercent)
  else if filterType = "topLosers" then
    assets.filter fun asset => decide (asset.dailyChangePercent < 0)
  else if filterType = "stocks" then
    assets.filter fun asset => asset.type == AssetType.stock
  else if filterType = "crypto" then
    assets.filter fun asset => asset.type == AssetType.crypto
  else
    assets

/-- JS `Math.round`: rounds half toward positive infinity. -/
def jsRound (q : ℚ) : Int := ⌊q + 1 / 2⌋

/-- `Math.round(x * 100) / 100`: round to 2 decimal places. -/
def round2 (q : ℚ) : ℚ := (jsRound (q * 100) : ℚ) / 100

/-- The body of the `assets.map` callback in `updateAssetPrices`; `rnd` is the
`Math.random()` draw of this call:
`changePercent = (rnd - 0.5) * 10`, `newPrice = currentPrice * (1 + changePercent / 100)`,
and the spread copies every other field unchanged. -/
def updateAsset (rnd : ℚ) (asset : Asset) : Asset :=
  let changePercent := (rnd - 1 / 2) * 10
  let newPrice := asset.currentPrice * (1 + changePercent / 100)
  { asset with
    currentPrice := round2 newPrice
    dailyChangePercent := round2 changePercent }

/-- `updateAssetPrices` of `assetUtils.ts`, with the stream of `Math.random()`
results made explicit: `rnd i` is the draw consumed by the asset at index `i`. -/
def updateAssetPrices (rnd : Nat → ℚ) (assets : List Asset) : List Asset :=
  assets.mapIdx fun i asset => updateAsset (rnd i) asset

/-- `getSimilarAssets` of `assetUtils.ts`: keep assets of the same `type` with
a different `id`, then `slice(0, limit)` (for a nonnegative limit, the first
`limit` survivors). -/
def getSimilarAssets (assets : List Asset) (currentAsset : Asset) (limit : Nat) :
    List Asset :=
  (assets.filter fun asset =>
    asset.id != currentAsset.id && asset.type == currentAsset.type).take limit

/-- Does the character sequence `s` begin with `sub`. -/
def startsWithCL : List Char → List Char → Bool
  | [], _ => true
  | _ :: _, [] => false
  | a :: as, b :: bs => a == b && startsWithCL as bs

/-- JS `String.prototype.includes`: `sub` occurs contiguously inside `s`. -/
def includesCL : List Char → List Char → Bool
  | [], sub => startsWithCL sub []
  | c :: t, sub => startsWithCL sub (c :: t) || includesCL t sub

/-- The search predicate of `processedAssets` in `HomeScreen.tsx`:
`asset.name.toLowerCase().includes(q.toLowerCase()) || asset.symbol.toLowerCase().includes(q.toLowerCase())`. -/
def matchesQuery (searchQuery : String) (asset : Asset) : Bool :=
  includesCL (foldCase asset.name) (foldCase searchQuery) ||
  includesCL (foldCase asset.symbol) (foldCase searchQuery)

/-- The search step of `processedAssets`: the filter runs under
`if (searchQuery)`, i.e. exactly when the query string is nonempty
(JS string truthiness). -/
def searchFilter (searchQuery : String) (assets : List Asset) : List Asset :=
  if searchQuery ≠ "" then assets.filter (matchesQuery searchQuery) else assets

/-- `processedAssets` of `HomeScreen.tsx`, transliterated:
filter, then (conditionally) search, then sort. -/
def processedAssets (assets : List Asset) (searchQuery : String)
    (sortField : SortField) (sortDirection : SortDirection) (filterType : String) :
    List Asset :=
  let filtered := filterAssets assets filterType
  let searched := if searchQuery ≠ "" then filtered.filter (matchesQuery searchQuery)
    else filtered
  sortAssets searched sortField sortDirection

/-- The pipeline formula of the spec, stage by stage:
`render = sort(search(filter(A, F), Q), S, D)`. -/
def renderPipeline (assets : List Asset) (filterType : String) (searchQuery : String)
    (sortField : SortField) (sortDirection : SortDirection) : List Asset :=
  sortAssets (searchFilter searchQuery (filterAssets assets filterType))
    sortField sortDirection

/-! Sample assets used to instantiate theorems with hypotheses. -/

def appleAsset : Asset :=
  { id := 1, name := "Apple Inc.", symbol := "AAPL", type := AssetType.stock,
    currentPrice := 150, dailyChangePercent := 2 }

def btcAsset : Asset :=
  { id := 2, name := "Bitcoin", symbol := "BTC", type := AssetType.crypto,
    currentPrice := 45000, dailyChangePercent := -1 }

def teslaAsset : Asset :=
  { id := 3, name := "Tesla Inc.", symbol := "TSLA", type := AssetType.stock,
    currentPrice := 800, dailyChangePercent := 6 }

def ethAsset : Asset :=
  { id := 4, name := "Ethereum", symbol := "ETH", type := AssetType.crypto,
    currentPrice := 3000, dailyChangePercent := -3 }

def flatAsset : Asset :=
  { id := 5, name := "Stable Co.", symbol := "STB", type := AssetType.stock,
    currentPrice := 10, dailyChangePercent := 0 }

def sampleAssets : List Asset := [appleAsset, btcAsset, teslaAsset, ethAsset, flatAsset]

/-! Helper lemmas -/

theorem updateAssetPrices_map {β : Type} (g : Asset → β)
    (hg : ∀ r a, g (updateAsset r a) = g a) (rnd : Nat → ℚ) (assets : List Asset) :
    (updateAssetPrices rnd assets).map g = assets.map g := by
  induction assets generalizing rnd with
  | nil => rfl
  | cons a l ih =>
    have h := ih fun i => rnd (i + 1)
    simp only [updateAssetPrices, List.mapIdx_cons, List.map_cons, hg]
    simp only [updateAssetPrices] at h
    rw [h]

/-- C8: `updateAssetPrices` preserves the length and, position by position, the
`id`, `name`, `symbol` and `type` fields; only `currentPrice` and
`dailyChangePercent` may change. (Non-mutation of the input is inherent to the
embedding: the function builds a new list from an immutable one.) -/
theorem updateAssetPrices_frame (rnd : Nat → ℚ) (assets : List Asset) :
    (updateAssetPrices rnd assets).length = assets.length ∧
    (updateAssetPrices rnd assets).map Asset.id = assets.map Asset.id ∧
    (updateAssetPrices rnd assets).map Asset.name = assets.map Asset.name ∧
    (updateAssetPrices rnd assets).map Asset.symbol = assets.map Asset.symbol ∧
    (updateAssetPrices rnd assets).map Asset.type = assets.map Asset.type := by
  refine ⟨by simp [updateAssetPrices], ?_, ?_, ?_, ?_⟩
  · exact updateAssetPrices_map Asset.id (fun r a => rfl) rnd assets
  · exact updateAssetPrices_map Asset.name (fun r a => rfl) rnd assets
  · exact updateAssetPrices_map Asset.symbol (fun r a => rfl) rnd assets
  · exact updateAssetPrices_map Asset.type (fun r a => rfl) rnd assets

/-- C10: the output of `sortAssets` is a permutation of its input: the same
elements with the same multiplicities, none dropped and none duplicated. -/
theorem sortAssets_perm (assets : List Asset) (field : SortField)
    (direction : SortDirection) : (sortAssets assets field direction).Perm assets :=
  List.mergeSort_perm assets (sortLe field direction)

/-- C6: every recommended asset has the focal asset's type and a different id,
at most `limit` assets are returned, and the result is a subsequence of the
source collection (order preserved, no additional sorting). -/
theorem getSimilarAssets_spec (assets : List Asset) (currentAsset : Asset)
    (limit : Nat) :
    (∀ x ∈ getSimilarAssets assets currentAsset limit,
      x.type = currentAsset.type ∧ x.id ≠ currentAsset.id) ∧
    (getSimilarAssets assets currentAsset limit).length ≤ limit ∧
    (getSimilarAssets assets currentAsset limit).Sublist assets := by
  refine ⟨?_, ?_, ?_⟩
  · intro x hx
    have hx2 : x ∈ assets.filter fun asset =>
        asset.id != currentAsset.id && asset.type == currentAsset.type :=
      (List.take_sublist _ _).mem hx
    have := (List.mem_filter.mp hx2).2
    simp only [Bool.and_eq_true, bne_iff_ne, beq_iff_eq] at this
    exact ⟨this.2, this.1⟩
  · simp only [getSimilarAssets, List.length_take]
    exact min_le_left _ _
  · exact (List.take_sublist _ _).trans (List.filter_sublist _)

theorem getSimilarAssets_spec_witness :
    teslaAsset ∈ getSimilarAssets sampleAssets appleAsset 2 ∧
    (teslaAsset.type = appleAsset.type ∧ teslaAsset.id ≠ appleAsset.id) :=
  ⟨by decide, (getSimilarAssets_spec sampleAssets appleAsset 2).1 teslaAsset (by decide)⟩

/-- C5: an unrecognized filter mode, and the mode `"all"`, fall through the
switch to the default branch: the input is returned unchanged (fail-open),
and no error is possible (the function is total). -/
theorem filterAssets_fail_open (assets : List Asset) (mode : String)
    (h : mode ≠ "topGainers" ∧ mode ≠ "topLosers" ∧ mode ≠ "stocks" ∧
      mode ≠ "crypto") :
    filterAssets assets mode = assets := by
  obtain ⟨h1, h2, h3, h4⟩ := h
  simp [filterAssets, h1, h2, h3, h4]

theorem filterAssets_fail_open_witness :
    (("all" : String) ≠ "topGainers" ∧ ("all" : String) ≠ "topLosers" ∧
      ("all" : String) ≠ "stocks" ∧ ("all" : String) ≠ "crypto") ∧
    filterAssets sampleAssets "all" = sampleAssets :=
  ⟨by decide, filterAssets_fail_open sampleAssets "all" (by decide)⟩

/-- C2: the rendered sequence computed by the view controller equals the
staged composition `sort(search(filter(A, F), Q), S, D)` applied in exactly
that fixed order: filter first, then search, then sort. -/
theorem processedAssets_eq_pipeline (assets : List Asset) (searchQuery : String)
    (sortField : SortField) (sortDirection : SortDirection) (filterType : String) :
    processedAssets assets searchQuery sortField sortDirection filterType =
      renderPipeline assets filterType searchQuery sortField sortDirection := by
  unfold processedAssets renderPipeline searchFilter
  rcases eq_or_ne searchQuery "" with h | h <;> simp [h]

/-! Order facts about the lexicographic string comparison -/

theorem lexLt_irrefl : ∀ l : List Char, lexLt l l = false
  | [] => rfl
  | a :: as => by simp [lexLt, lexLt_irrefl as]

theorem lexLt_trans {a b c : List Char} (h₁ : lexLt a b = true)
    (h₂ : lexLt b c = true) : lexLt a c = true := by
  induction a generalizing b c with
  | nil =>
    cases b with
    | nil => simp [lexLt] at h₁
    | cons y ys =>
      cases c with
      | nil => simp [lexLt] at h₂
      | cons z zs => simp [lexLt]
  | cons x xs ih =>
    cases b with
    | nil => simp [lexLt] at h₁
    | cons y ys =>
      cases c with
      | nil => simp [lexLt] at h₂
      | cons z zs =>
        simp only [lexLt, Bool.or_eq_true, decide_eq_true_eq, Bool.and_eq_true,
          beq_iff_eq] at h₁ h₂ ⊢
        rcases h₁ with h₁ | ⟨rfl, h₁⟩
        · rcases h₂ with h₂ | ⟨rfl, h₂⟩
          · exact Or.inl (lt_trans h₁ h₂)
          · exact Or.inl h₁
        · rcases h₂ with h₂ | ⟨rfl, h₂⟩
          · exact Or.inl h₂
          · exact Or.inr ⟨rfl, ih h₁ h₂⟩

theorem lexLt_asymm {a b : List Char} (h : lexLt a b = true) : lexLt b a = false := by
  cases h2 : lexLt b a
  · rfl
  · have := lexLt_trans h h2
    rw [lexLt_irrefl] at this
    exact this.symm

theorem lexLt_eq_of_not {a b : List Char} (h₁ : lexLt a b = false)
    (h₂ : lexLt b a = false) : a = b := by
  induction a generalizing b with
  | nil =>
    cases b with
    | nil => rfl
    | cons y ys => simp [lexLt] at h₁
  | cons x xs ih =>
    cases b with
    | nil => simp [lexLt] at h₂
    | cons y ys =>
      simp only [lexLt, Bool.or_eq_false_iff, decide_eq_false_iff_not,
        Bool.and_eq_false_iff, beq_eq_false_iff_ne, ne_eq] at h₁ h₂
      have hxy : x = y := le_antisymm (le_of_not_lt h₂.1) (le_of_not_lt h₁.1)
      subst hxy
      rcases h₁.2 with h | h
      · exact absurd rfl h
      · rcases h₂.2 with h' | h'
        · exact absurd rfl h'
        · rw [ih h h']

/-! Order facts about the per-field sort keys -/

/-- Two assets tie on the chosen sort key: equal lowercased names, or equal
`dailyChangePercent` values. -/
def sameKey (field : SortField) (a b : Asset) : Bool :=
  match field with
  | .name => foldCase a.name == foldCase b.name
  | .dailyChangePercent => a.dailyChangePercent == b.dailyChangePercent

theorem keyLt_irrefl (field : SortField) (a : Asset) : keyLt field a a = false := by
  cases field
  · simp [keyLt, lexLt_irrefl]
  · simp [keyLt]

theorem keyLt_trans (field : SortField) {a b c : Asset} (h₁ : keyLt field a b = true)
    (h₂ : keyLt field b c = true) : keyLt field a c = true := by
  cases field <;> simp only [keyLt, decide_eq_true_eq] at h₁ h₂ ⊢
  · exact lexLt_trans h₁ h₂
  · exact lt_trans h₁ h₂

theorem keyLt_asymm (field : SortField) {a b : Asset} (h : keyLt field a b = true) :
    keyLt field b a = false := by
  cases field <;> simp only [keyLt, decide_eq_true_eq, decide_eq_false_iff_not] at h ⊢
  · exact lexLt_asymm h
  · exact not_lt_of_lt h

theorem sameKey_of_not_keyLt (field : SortField) {a b : Asset}
    (h₁ : keyLt field a b = false) (h₂ : keyLt field b a = false) :
    sameKey field a b = true := by
  cases field <;>
    simp only [keyLt, sameKey, decide_eq_false_iff_not, beq_iff_eq] at h₁ h₂ ⊢
  · exact lexLt_eq_of_not h₁ h₂
  · exact le_antisymm (le_of_not_lt h₂) (le_of_not_lt h₁)

theorem keyLt_congr_right (field : SortField) {a b : Asset}
    (hs : sameKey field a b = true) (c : Asset) :
    keyLt field c a = keyLt field c b := by
  cases field <;> simp only [sameKey, keyLt, beq_iff_eq] at hs ⊢ <;> rw [hs]

theorem sameKey_symm (field : SortField) {a b : Asset}
    (h : sameKey field a b = true) : sameKey field b a = true := by
  cases field <;> simp only [sameKey, beq_iff_eq] at h ⊢ <;> rw [h]

theorem sameKey_trans (field : SortField) {a b c : Asset}
    (h₁ : sameKey field a b = true) (h₂ : sameKey field b c = true) :
    sameKey field a c = true := by
  cases field <;> simp only [sameKey, beq_iff_eq] at h₁ h₂ ⊢ <;> rw [h₁, h₂]

/-! Characterization of the comparator-induced order -/

theorem sortLe_asc (field : SortField) (a b : Asset) :
    sortLe field .asc a b = !(keyLt field b a) := by
  simp only [sortLe, jsCompare]
  split_ifs with h1 h2
  · rw [keyLt_asymm field h1]
    rfl
  · rw [h2]
    rfl
  · rw [Bool.eq_false_iff.mpr h2]
    rfl

theorem sortLe_desc (field : SortField) (a b : Asset) :
    sortLe field .desc a b = !(keyLt field a b) := by
  simp only [sortLe, jsCompare]
  split_ifs with h1 h2
  · rw [keyLt_asymm field h1]
    rfl
  · rw [h2]
    rfl
  · rw [Bool.eq_false_iff.mpr h2]
    rfl

theorem keyLt_not_trans (field : SortField) {a b c : Asset}
    (h₁ : keyLt field b a = false) (h₂ : keyLt field c b = false) :
    keyLt field c a = false := by
  cases h3 : keyLt field c a
  · rfl
  · exfalso
    cases h4 : keyLt field a b
    · have hs := sameKey_of_not_keyLt field h4 h₁
      rw [keyLt_congr_right field hs c] at h3
      simp [h₂] at h3
    · have := keyLt_trans field h3 h4
      simp [h₂] at this

theorem sortLe_trans (field : SortField) (direction : SortDirection) :
    ∀ (a b c : Asset), sortLe field direction a b = true →
      sortLe field direction b c = true → sortLe field direction a c = true := by
  intro a b c h₁ h₂
  cases direction
  · rw [sortLe_asc] at h₁ h₂ ⊢
    rw [Bool.not_eq_true'] at h₁ h₂ ⊢
    exact keyLt_not_trans field h₁ h₂
  · rw [sortLe_desc] at h₁ h₂ ⊢
    rw [Bool.not_eq_true'] at h₁ h₂ ⊢
    exact keyLt_not_trans field h₂ h₁

theorem sortLe_total (field : SortField) (direction : SortDirection) :
    ∀ (a b : Asset),
      (sortLe field direction a b || sortLe field direction b a) = true := by
  intro a b
  cases direction
  · rw [sortLe_asc, sortLe_asc]
    cases h : keyLt field b a
    · simp
    · simp [keyLt_asymm field h]
  · rw [sortLe_desc, sortLe_desc]
    cases h : keyLt field a b
    · simp
    · simp [keyLt_asymm field h]

theorem sortLe_of_sameKey (field : SortField) (direction : SortDirection)
    {a b : Asset} (h : sameKey field a b = true) :
    sortLe field direction a b = true := by
  cases direction
  · rw [sortLe_asc, keyLt_congr_right field h b, keyLt_irrefl]
    rfl
  · rw [sortLe_desc, ← keyLt_congr_right field h a, keyLt_irrefl]
    rfl

/-- C9: `sortAssets` is idempotent: sorting an already sorted list (with the
same field and direction) returns it unchanged. -/
theorem sortAssets_idem (assets : List Asset) (field : SortField)
    (direction : SortDirection) :
    sortAssets (sortAssets assets field direction) field direction =
      sortAssets assets field direction :=
  List.mergeSort_of_sorted
    (List.sorted_mergeSort (sortLe_trans field direction)
      (sortLe_total field direction) assets)

/-- C4: `sortAssets` is stable — for every tie class of the chosen key
(represented by an arbitrary witness asset `w`), the elements tying with `w`
appear in the output in exactly their original input order — and the `desc`
comparator is the mirror of the `asc` comparator, so ties under `desc` also
resolve to original input order. -/
theorem sortAssets_stable (assets : List Asset) (field : SortField)
    (direction : SortDirection) (w : Asset) :
    (sortAssets assets field direction).filter (fun a => sameKey field a w) =
      assets.filter (fun a => sameKey field a w) ∧
    ∀ a b, jsCompare field .desc a b = jsCompare field .asc b a := by
  constructor
  · have hsub : (assets.filter fun a => sameKey field a w).Sublist assets :=
      List.filter_sublist assets
    have hpw : (assets.filter fun a => sameKey field a w).Pairwise
        (fun a b => sortLe field direction a b = true) := by
      apply List.pairwise_of_forall_mem_list
      intro a ha b hb
      have ha2 := (List.mem_filter.mp ha).2
      have hb2 := (List.mem_filter.mp hb).2
      exact sortLe_of_sameKey field direction
        (sameKey_trans field ha2 (sameKey_symm field hb2))
    have hstep : (assets.filter fun a => sameKey field a w).Sublist
        (sortAssets assets field direction) :=
      List.sublist_mergeSort (sortLe_trans field direction)
        (sortLe_total field direction) hpw hsub
    have hself : ((assets.filter fun a => sameKey field a w).filter
        fun a => sameKey field a w) = assets.filter fun a => sameKey field a w := by
      rw [List.filter_filter]
      simp
    have hsub2 : (assets.filter fun a => sameKey field a w).Sublist
        ((sortAssets assets field direction).filter fun a => sameKey field a w) := by
      have h := List.Sublist.filter (fun a => sameKey field a w) hstep
      rwa [hself] at h
    have hlen : ((sortAssets assets field direction).filter
        fun a => sameKey field a w).length =
        (assets.filter fun a => sameKey field a w).length :=
      (((List.mergeSort_perm assets (sortLe field direction))).filter
        fun a => sameKey field a w).length_eq
    exact (hsub2.eq_of_length hlen.symm).symm
  · intro a b
    rfl

/-! The filter partition property -/

theorem filterAssets_gainers_eq (assets : List Asset) :
    filterAssets assets "topGainers" =
      assets.filter fun x => decide (0 < x.dailyChangePercent) := rfl

theorem filterAssets_losers_eq (assets : List Asset) :
    filterAssets assets "topLosers" =
      assets.filter fun x => decide (x.dailyChangePercent < 0) := rfl

/-- C3: `topGainers` keeps exactly the assets with strictly positive
`dailyChangePercent`, `topLosers` exactly the strictly negative ones, the two
results together with the zero-change elements exactly partition the input
with no overlap, and each part preserves the input order. -/
theorem filterAssets_partition (assets : List Asset) :
    (∀ a, a ∈ filterAssets assets "topGainers" ↔
      a ∈ assets ∧ 0 < a.dailyChangePercent) ∧
    (∀ a, a ∈ filterAssets assets "topLosers" ↔
      a ∈ assets ∧ a.dailyChangePercent < 0) ∧
    (filterAssets assets "topGainers" ++ filterAssets assets "topLosers" ++
      assets.filter (fun x => x.dailyChangePercent == 0)).Perm assets ∧
    (filterAssets assets "topGainers").Sublist assets ∧
    (filterAssets assets "topLosers").Sublist assets ∧
    (assets.filter (fun x => x.dailyChangePercent == 0)).Sublist assets ∧
    (∀ a, a ∈ filterAssets assets "topGainers" →
      a ∉ filterAssets assets "topLosers" ∧
      a ∉ assets.filter (fun x => x.dailyChangePercent == 0)) ∧
    (∀ a, a ∈ filterAssets assets "topLosers" →
      a ∉ assets.filter (fun x => x.dailyChangePercent == 0)) := by
  have hg := filterAssets_gainers_eq assets
  have hl := filterAssets_losers_eq assets
  refine ⟨?_, ?_, ?_, ?_, ?_, ?_, ?_, ?_⟩
  · intro a
    rw [hg, List.mem_filter]
    simp
  · intro a
    rw [hl, List.mem_filter]
    simp
  · rw [hg, hl, List.append_assoc]
    have h1 := List.filter_append_perm
      (fun x => decide (0 < x.dailyChangePercent)) assets
    have h2 := List.filter_append_perm
      (fun x => decide (x.dailyChangePercent < 0))
      (assets.filter fun x => !decide (0 < x.dailyChangePercent))
    rw [List.filter_filter, List.filter_filter] at h2
    have e1 : assets.filter (fun x => decide (x.dailyChangePercent < 0) &&
        !decide (0 < x.dailyChangePercent)) =
        assets.filter fun x => decide (x.dailyChangePercent < 0) := by
      apply List.filter_congr
      intro x _
      by_cases h : x.dailyChangePercent < 0
      · simp [h, h.asymm]
      · simp [h]
    have e2 : assets.filter (fun x => !decide (x.dailyChangePercent < 0) &&
        !decide (0 < x.dailyChangePercent)) =
        assets.filter fun x => x.dailyChangePercent == 0 := by
      apply List.filter_congr
      intro x _
      rcases lt_trichotomy x.dailyChangePercent 0 with h | h | h
      · simp [h, ne_of_lt h]
      · simp [h]
      · simp [h, h.asymm, ne_of_gt h]
    rw [e1, e2] at h2
    exact (List.Perm.append_left _ h2).trans h1
  · rw [hg]
    exact List.filter_sublist assets
  · rw [hl]
    exact List.filter_sublist assets
  · exact List.filter_sublist assets
  · intro a ha
    rw [hg, List.mem_filter] at ha
    have hpos : 0 < a.dailyChangePercent := by simpa using ha.2
    constructor
    · rw [hl, List.mem_filter]
      rintro ⟨-, hc⟩
      simp only [decide_eq_true_eq] at hc
      exact absurd hc hpos.asymm
    · rw [List.mem_filter]
      rintro ⟨-, hc⟩
      rw [beq_iff_eq] at hc
      exact absurd hc (ne_of_gt hpos)
  · intro a ha
    rw [hl, List.mem_filter] at ha
    have hneg : a.dailyChangePercent < 0 := by simpa using ha.2
    rw [List.mem_filter]
    rintro ⟨-, hc⟩
    rw [beq_iff_eq] at hc
    exact absurd hc (ne_of_lt hneg)

theorem filterAssets_partition_witness :
    appleAsset ∈ filterAssets sampleAssets "topGainers" ∧
    (appleAsset ∉ filterAssets sampleAssets "topLosers" ∧
      appleAsset ∉ sampleAssets.filter fun x => x.dailyChangePercent == 0) :=
  ⟨by decide,
    (filterAssets_partition sampleAssets).2.2.2.2.2.2.1 appleAsset (by decide)⟩

/-! The search stage -/

/-- C7 counterexample: the whitespace-only query is blank, yet the search
stage is not the identity on it: the filter still runs (a nonempty string is
truthy), and neither `"bitcoin"` nor `"btc"` contains a space, so the asset
is dropped. -/
theorem searchFilter_blank_counterexample :
    searchFilter " " [btcAsset] = [] ∧ ([btcAsset] : List Asset) ≠ [] := by
  constructor
  · decide
  · decide

/-- C7 (amended): the search stage is the identity exactly when the query is
the empty string; for every nonempty query — including whitespace-only ones —
it keeps exactly the assets whose case-folded name or case-folded symbol
contains the case-folded query as a substring, preserving input order. -/
theorem searchFilter_spec (assets : List Asset) (q : String) :
    (q = "" → searchFilter q assets = assets) ∧
    (q ≠ "" →
      (∀ a, a ∈ searchFilter q assets ↔ a ∈ assets ∧
        (includesCL (foldCase a.name) (foldCase q) = true ∨
          includesCL (foldCase a.symbol) (foldCase q) = true)) ∧
      (searchFilter q assets).Sublist assets) := by
  constructor
  · intro h
    simp [searchFilter, h]
  · intro h
    refine ⟨?_, ?_⟩
    · intro a
      unfold searchFilter
      rw [if_pos h, List.mem_filter]
      simp [matchesQuery]
    · unfold searchFilter
      rw [if_pos h]
      exact List.filter_sublist assets

theorem searchFilter_spec_witness :
    searchFilter "" sampleAssets = sampleAssets ∧
    (("btc" : String) ≠ "") ∧
    (searchFilter "btc" sampleAssets).Sublist sampleAssets :=
  ⟨(searchFilter_spec sampleAssets "").1 rfl, by decide,
    ((searchFilter_spec sampleAssets "btc").2 (by decide)).2⟩

/-! The price simulation -/

theorem round2_le (q : ℚ) : round2 q ≤ q + 1 / 200 := by
  rw [round2, jsRound, div_le_iff₀ (by norm_num : (0:ℚ) < 100)]
  calc (⌊q * 100 + 1 / 2⌋ : ℚ) ≤ q * 100 + 1 / 2 := Int.floor_le _
    _ = (q + 1 / 200) * 100 := by ring

theorem round2_gt (q : ℚ) : q - 1 / 200 < round2 q := by
  rw [round2, jsRound, lt_div_iff₀ (by norm_num : (0:ℚ) < 100)]
  have h := Int.lt_floor_add_one (q * 100 + 1 / 2)
  linarith

theorem round2_nonneg {q : ℚ} (h : 0 ≤ q) : 0 ≤ round2 q := by
  rw [round2, jsRound]
  apply div_nonneg _ (by norm_num)
  have h2 : (0:ℤ) ≤ ⌊q * 100 + 1 / 2⌋ := Int.floor_nonneg.mpr (by linarith)
  exact_mod_cast h2

theorem round2_pos {q : ℚ} (h : 1 / 200 ≤ q) : 0 < round2 q := by
  rw [round2, jsRound]
  apply div_pos _ (by norm_num)
  have h1 : (1:ℤ) ≤ ⌊q * 100 + 1 / 2⌋ := by
    apply Int.le_floor.mpr
    push_cast
    linarith
  have h2 : (1:ℚ) ≤ (⌊q * 100 + 1 / 2⌋ : ℚ) := by exact_mod_cast h1
  linarith

/-- C1 (amended): each updated price equals `round2(old * (1 + delta/100))`
for some delta in `[-5, 5]`, lies within `1/200` (half of the final rounding
step) of the `[0.95, 1.05]` band around the old price, and is nonnegative;
it is strictly positive whenever the old price is at least `0.01`. It is not
strictly positive for every strictly positive old price: rounding to 2
decimal places can yield exactly `0` (see the counterexample). -/
theorem updateAssetPrices_price_bounds (rnd : Nat → ℚ) (assets : List Asset)
    (i : Nat) (hrnd : ∀ j, 0 ≤ rnd j ∧ rnd j < 1) (hi : i < assets.length)
    (hi2 : i < (updateAssetPrices rnd assets).length)
    (hpos : 0 < assets[i].currentPrice) :
    (∃ delta : ℚ, -5 ≤ delta ∧ delta ≤ 5 ∧
      (updateAssetPrices rnd assets)[i].currentPrice =
        round2 (assets[i].currentPrice * (1 + delta / 100))) ∧
    95 / 100 * assets[i].currentPrice - 1 / 200 ≤
      (updateAssetPrices rnd assets)[i].currentPrice ∧
    (updateAssetPrices rnd assets)[i].currentPrice ≤
      105 / 100 * assets[i].currentPrice + 1 / 200 ∧
    0 ≤ (updateAssetPrices rnd assets)[i].currentPrice ∧
    (1 / 100 ≤ assets[i].currentPrice →
      0 < (updateAssetPrices rnd assets)[i].currentPrice) := by
  have he : (updateAssetPrices rnd assets)[i] = updateAsset (rnd i) assets[i] := by
    simp [updateAssetPrices]
  rw [he]
  obtain ⟨hr0, hr1⟩ := hrnd i
  set p := assets[i].currentPrice with hp
  set d : ℚ := (rnd i - 1 / 2) * 10 with hd
  have hd1 : -5 ≤ d := by rw [hd]; linarith
  have hd2 : d ≤ 5 := by rw [hd]; linarith
  have hcp : (updateAsset (rnd i) assets[i]).currentPrice =
      round2 (p * (1 + d / 100)) := rfl
  rw [hcp]
  have hm1 : 19 / 20 ≤ 1 + d / 100 := by linarith
  have hm2 : 1 + d / 100 ≤ 21 / 20 := by linarith
  have hb1 : 19 / 20 * p ≤ p * (1 + d / 100) := by nlinarith
  have hb2 : p * (1 + d / 100) ≤ 21 / 20 * p := by nlinarith
  refine ⟨⟨d, hd1, hd2, rfl⟩, ?_, ?_, ?_, ?_⟩
  · have hlow := round2_gt (p * (1 + d / 100))
    linarith
  · have hhigh := round2_le (p * (1 + d / 100))
    linarith
  · exact round2_nonneg (by nlinarith)
  · intro hq
    apply round2_pos
    nlinarith

/-- Asset with a tiny but strictly positive price (`0.005` currency units). -/
def tinyAsset : Asset :=
  { id := 9, name := "Micro Cap", symbol := "MCR", type := AssetType.stock,
    currentPrice := 1 / 200, dailyChangePercent := 0 }

/-- The draw stream in which every `Math.random()` call returns `0`
(an admissible value: `Math.random()` ranges over `[0, 1)`). -/
def zeroRnd : Nat → ℚ := fun _ => 0

/-- C1 counterexample: for the strictly positive price `0.005` and the
admissible draw `0` (delta `-5`), the updated price is
`round2(0.005 * 0.95) = round2(0.00475) = 0`: not strictly positive. -/
theorem updateAssetPrices_not_pos_counterexample :
    0 < tinyAsset.currentPrice ∧ (0 ≤ zeroRnd 0 ∧ zeroRnd 0 < 1) ∧
    (updateAssetPrices zeroRnd [tinyAsset]).map Asset.currentPrice = [0] := by
  refine ⟨by norm_num [tinyAsset], by norm_num [zeroRnd], ?_⟩
  simp only [updateAssetPrices, List.mapIdx_cons, List.mapIdx_nil, List.map_cons,
    List.map_nil, updateAsset, zeroRnd, tinyAsset]
  norm_num [round2, jsRound]

theorem updateAssetPrices_price_bounds_witness :
    (0 ≤ zeroRnd 0 ∧ zeroRnd 0 < 1) ∧ 0 < [appleAsset].length ∧
    0 < (updateAssetPrices zeroRnd [appleAsset]).length ∧
    0 < ([appleAsset] : List Asset)[0].currentPrice ∧
    0 ≤ (updateAssetPrices zeroRnd [appleAsset])[0].currentPrice :=
  ⟨by norm_num [zeroRnd], by norm_num, by simp [updateAssetPrices],
    by norm_num [appleAsset],
    (updateAssetPrices_price_bounds zeroRnd [appleAsset] 0
      (fun j => by norm_num [zeroRnd]) (by norm_num)
      (by simp [updateAssetPrices]) (by norm_num [appleAsset])).2.2.2.1⟩
